import Mathlib

/-!
Shallow embedding of the ts-todo repository.

Source layout:
  * `src/unnamed/part_001` — the todo module: `Task`, `addTask`, `listTasks`, `markDone`.
  * `src/unnamed/part_000` — the console front end: `processCommand`.
  * `src/web/app.ts` — the web front end: `getNextId`, `addTask`, `toggleTask`,
    `deleteTask`, `clearCompleted`, `loadTasks`, `saveTasks`.

Modelling conventions: JS numbers that hold task ids are modelled as `Int`
(all ids the program produces are integers); the clock (`new Date().toISOString()`)
is passed in as an explicit `now : String` argument; JS arrays are `List`;
`localStorage` is an `Option String` slot passed explicitly; `JSON.parse` is an
abstract parameter `parse : String → Option Json` (the platform primitive, with
`none` standing for a thrown SyntaxError).
-/

namespace TsTodo

/-- Task record, from `type Task` in `src/unnamed/part_001` (same shape in
`src/web/app.ts`): id, text, completed flag, creation timestamp string. -/
structure Task where
  id : Int
  text : String
  completed : Bool
  createdAt : String
deriving DecidableEq, Repr

/-- Array.join with a separator, as used by `.join("\n")` and `.join(" ")`
in the source: empty list gives the empty string, otherwise the elements
interleaved with the separator. -/
def joinSep (sep : String) : List String → String
  | [] => ""
  | [s] => s
  | s :: rest => s ++ sep ++ joinSep sep rest

/-- Id assignment, from `getNextId` in `src/web/app.ts` (the same expression is
inlined in `addTask` of `src/unnamed/part_001`):
`tasks.length > 0 ? Math.max(...tasks.map(t => t.id)) + 1 : 1`.
`Math.max` over the nonempty id list is the fold of `max` started at the head. -/
def getNextId (tasks : List Task) : Int :=
  match tasks with
  | [] => 1
  | t :: ts => (ts.map (fun u => u.id)).foldl max t.id + 1

/-- `addTask` from `src/unnamed/part_001` (and, composed with `getNextId`,
the task construction in `addTask` of `src/web/app.ts`): returns a new array
with a freshly built task appended; `createdAt` takes the caller clock `now`. -/
def addTask (tasks : List Task) (text : String) (now : String) : List Task :=
  tasks ++ [{ id := getNextId tasks, text := text, completed := false, createdAt := now }]

/-- The per-task line built inside `listTasks` of `src/unnamed/part_001`:
`[<status>] <id> - <text>` with status `x` when completed, a space otherwise. -/
def formatTask (task : Task) : String :=
  let status := if task.completed then "x" else " "
  "[" ++ status ++ "] " ++ toString task.id ++ " - " ++ task.text

/-- `listTasks` from `src/unnamed/part_001`: the sentinel for an empty array,
otherwise the formatted lines joined with newlines. -/
def listTasks (tasks : List Task) : String :=
  if tasks.length = 0 then "No tasks yet."
  else joinSep "\n" (tasks.map formatTask)

/-- `markDone` from `src/unnamed/part_001`: map over the array, replacing the
task whose id matches by a copy with `completed` set to true. -/
def markDone (tasks : List Task) (id : Int) : List Task :=
  tasks.map (fun task => if task.id = id then { task with completed := true } else task)

/-- `deleteTask` from `src/web/app.ts`: keep the tasks whose id differs. -/
def deleteTask (tasks : List Task) (id : Int) : List Task :=
  tasks.filter (fun t => t.id ≠ id)

/-- `clearCompleted` from `src/web/app.ts`: keep the tasks that are not completed. -/
def clearCompleted (tasks : List Task) : List Task :=
  tasks.filter (fun t => !t.completed)

/-- `toggleTask` from `src/web/app.ts`: `tasks.find(t => t.id === id)` followed by
in-place negation of the completed flag of that task — i.e. the first task whose id
matches is toggled, everything else is untouched. -/
def toggleTask (tasks : List Task) (id : Int) : List Task :=
  match tasks with
  | [] => []
  | t :: ts =>
    if t.id = id then { t with completed := !t.completed } :: ts
    else t :: toggleTask ts id

/-- The id sequence of a collection (used to state the uniqueness invariant). -/
def ids (tasks : List Task) : List Int :=
  tasks.map (fun t => t.id)

/-- JS `String.prototype.trim()`: drop whitespace from both ends.
Modelled directly over the character list. -/
def jsTrim (s : String) : String :=
  ⟨((s.data.dropWhile Char.isWhitespace).reverse.dropWhile Char.isWhitespace).reverse⟩

/-- JS `String.prototype.split(sep)` for a single-character separator, over
character lists: splitting the empty string yields one empty part, and empty
parts between consecutive separators are kept (`"a  b".split(" ")` is
`["a", "", "b"]`). -/
def splitChars (sep : Char) : List Char → List (List Char)
  | [] => [[]]
  | c :: rest =>
    if c = sep then [] :: splitChars sep rest
    else
      match splitChars sep rest with
      | [] => [[c]]
      | g :: gs => (c :: g) :: gs

/-- JS `split(" ")` on a string, producing strings. -/
def jsSplitOnSpace (s : String) : List String :=
  (splitChars ' ' s.data).map (fun cs => ⟨cs⟩)

/-- JS `String.prototype.toLowerCase()` (the command keywords are ASCII). -/
def jsToLower (s : String) : String :=
  ⟨s.data.map Char.toLower⟩

/-- The longest leading digit run of a character list, read as a number:
the digit-consuming phase of `parseInt(s, 10)`. `none` when there is no digit. -/
def leadingDigits (cs : List Char) : Option Nat :=
  let ds := cs.takeWhile (fun c => c.isDigit)
  if ds = [] then none
  else some (ds.foldl (fun n c => 10 * n + (c.toNat - 48)) 0)

/-- JS `parseInt(s, 10)`: skip leading whitespace, take an optional sign, then
the longest run of decimal digits; `none` models the NaN result when no digit
follows. Trailing garbage after the digits is ignored, exactly as in JS
(`parseInt("12abc", 10)` is `12`). -/
def parseIntBase10 (s : String) : Option Int :=
  let cs := s.data.dropWhile (fun c => c.isWhitespace)
  match cs with
  | '-' :: rest => (leadingDigits rest).map (fun n => -(n : Int))
  | '+' :: rest => (leadingDigits rest).map (fun n => (n : Int))
  | rest => (leadingDigits rest).map (fun n => (n : Int))

/-- The command keyword of a console line, from `processCommand` in
`src/unnamed/part_000`: trim, split on single spaces, lowercase the first part
(`parts[0]?.toLowerCase() || ""`; the split always yields at least one part). -/
def cmdOf (input : String) : String :=
  jsToLower ((jsSplitOnSpace (jsTrim input)).headD "")

/-- The argument text of a console line, from `processCommand`:
`parts.slice(1).join(" ")`. Since `split(" ")` keeps empty parts between
consecutive spaces, this reproduces the trimmed line after the first token,
interior space runs included. -/
def argsJoined (input : String) : String :=
  joinSep " " ((jsSplitOnSpace (jsTrim input)).drop 1)

/-- The lines printed by `showHelp` in `src/unnamed/part_000`. -/
def helpLines : List String :=
  ["\nAvailable commands:",
   "  add <task text>  - Add a new task",
   "  list            - Show all tasks",
   "  done <id>       - Mark a task as completed",
   "  help            - Show this help message",
   "  quit            - Exit the application\n"]

/-- `processCommand` from `src/unnamed/part_000`, as a pure step: given the
clock value `now`, the input line and the current collection, return the new
collection together with the list of lines the branch prints. The `quit`
branch only reports the farewell (process exit is outside the model). -/
def processCommand (now : String) (input : String) (tasks : List Task) :
    List Task × List String :=
  let parts := jsSplitOnSpace (jsTrim input)
  let command := jsToLower (parts.headD "")
  if command = "add" then
    let taskText := joinSep " " (parts.drop 1)
    if taskText.length = 0 then
      (tasks, ["Error: Task text cannot be empty. Use: add <task text>"])
    else
      (addTask tasks taskText now, ["Task added successfully!"])
  else if command = "list" then
    (tasks, ["\n" ++ listTasks tasks ++ "\n"])
  else if command = "done" then
    let idStr := jsTrim (joinSep " " (parts.drop 1))
    if idStr = "" then
      (tasks, ["Error: Please provide a task ID. Use: done <id>"])
    else
      match parseIntBase10 idStr with
      | none =>
        (tasks, ["Error: \"" ++ idStr ++ "\" is not a valid task ID. Please use a number."])
      | some id =>
        if tasks.any (fun t => t.id = id) then
          (markDone tasks id, ["Task " ++ toString id ++ " marked as done!"])
        else
          (tasks, ["Error: Task with ID " ++ toString id ++ " not found."])
  else if command = "help" then
    (tasks, helpLines)
  else if command = "quit" then
    (tasks, ["Goodbye!"])
  else if command = "" then
    (tasks, [])
  else
    (tasks, ["Unknown command: \"" ++ command ++ "\". Type \"help\" for available commands."])

/-- Untyped JSON values, the codomain of the platform `JSON.parse` and the
structure `JSON.stringify` renders. Numbers are restricted to the integers the
program produces. -/
inductive Json where
  | null : Json
  | bool : Bool → Json
  | num : Int → Json
  | str : String → Json
  | arr : List Json → Json
  | obj : List (String × Json) → Json

/-- The JSON value `JSON.stringify` renders for one task in `saveTasks` of
`src/web/app.ts`: an object with the four fields in declaration order. -/
def encodeTask (t : Task) : Json :=
  Json.obj [("id", Json.num t.id), ("text", Json.str t.text),
            ("completed", Json.bool t.completed), ("createdAt", Json.str t.createdAt)]

/-- The JSON value of the whole persisted blob written by `saveTasks`:
the array of the encoded tasks. -/
def encodeTasks (ts : List Task) : Json :=
  Json.arr (ts.map encodeTask)

/-- Reading an untyped JSON value back as a `Task`. `loadTasks` installs the
parsed value without any such check; this definition is the typed view used to
state the round-trip property: it accepts exactly the object shape
`encodeTask` produces. -/
def readTask : Json → Option Task
  | Json.obj [("id", Json.num i), ("text", Json.str tx),
              ("completed", Json.bool c), ("createdAt", Json.str ca)] =>
    some { id := i, text := tx, completed := c, createdAt := ca }
  | _ => none

/-- Reading a list of untyped JSON values as tasks, all of them or nothing. -/
def readTaskList : List Json → Option (List Task)
  | [] => some []
  | x :: xs =>
    match readTask x, readTaskList xs with
    | some t, some ts => some (t :: ts)
    | _, _ => none

/-- Reading an untyped JSON value as a task collection: it must be an array of
task objects. This is the typed view of the value `loadTasks` installs. -/
def readTasks : Json → Option (List Task)
  | Json.arr xs => readTaskList xs
  | _ => none

/-- `loadTasks` from `src/web/app.ts`, as a pure function of the storage slot
and the current in-memory value. `parse` is the platform `JSON.parse` (`none`
for a thrown SyntaxError). The JS guard `if (stored)` is false for `null` and
for the empty string, so both leave the collection as it was; otherwise the
parsed value is installed unchecked, and a parse failure resets to the empty
array. The in-memory `tasks` variable is untyped after this assignment, hence
the `Json` state. -/
def loadTasks (parse : String → Option Json) (stored : Option String)
    (current : Json) : Json :=
  match stored with
  | none => current
  | some s =>
    if s = "" then current
    else
      match parse s with
      | some v => v
      | none => Json.arr []

/-! ## Helper lemmas -/

theorem foldl_max_init_le (a : Int) (xs : List Int) : a ≤ xs.foldl max a := by
  induction xs generalizing a with
  | nil => exact le_refl a
  | cons x xs ih => exact le_trans (le_max_left a x) (ih (max a x))

theorem foldl_max_mem_le (xs : List Int) (a x : Int) (hx : x ∈ xs) :
    x ≤ xs.foldl max a := by
  induction xs generalizing a with
  | nil => cases hx
  | cons y ys ih =>
    rcases List.mem_cons.mp hx with h | h
    · subst h
      exact le_trans (le_max_right a x) (foldl_max_init_le (max a x) ys)
    · exact ih (max a y) h

theorem foldl_max_eq_init_or_mem (xs : List Int) (a : Int) :
    xs.foldl max a = a ∨ xs.foldl max a ∈ xs := by
  induction xs generalizing a with
  | nil => exact Or.inl rfl
  | cons y ys ih =>
    rcases ih (max a y) with h | h
    · rcases max_cases a y with ⟨h1, _⟩ | ⟨h1, _⟩
      · left
        rw [List.foldl_cons, h, h1]
      · right
        rw [List.foldl_cons, h, h1]
        exact List.mem_cons_self y ys
    · right
      rw [List.foldl_cons]
      exact List.mem_cons_of_mem y h

/-- Every id already present is strictly below the id the add operation assigns. -/
theorem getNextId_gt (C : List Task) : ∀ u ∈ C, u.id < getNextId C := by
  intro u hu
  cases C with
  | nil => cases hu
  | cons t ts =>
    have hfold : u.id ≤ (ts.map (fun v => v.id)).foldl max t.id := by
      rcases List.mem_cons.mp hu with h | h
      · subst h
        exact foldl_max_init_le u.id (ts.map (fun v => v.id))
      · exact foldl_max_mem_le _ t.id u.id (List.mem_map_of_mem _ h)
    have : getNextId (t :: ts) = (ts.map (fun v => v.id)).foldl max t.id + 1 := rfl
    omega

/-- For a nonempty collection the assigned id is one more than an id that occurs. -/
theorem getNextId_attained (C : List Task) (h : C ≠ []) :
    ∃ u ∈ C, getNextId C = u.id + 1 := by
  cases C with
  | nil => exact absurd rfl h
  | cons t ts =>
    rcases foldl_max_eq_init_or_mem (ts.map fun v => v.id) t.id with h1 | h1
    · refine ⟨t, List.mem_cons_self t ts, ?_⟩
      show (ts.map (fun v => v.id)).foldl max t.id + 1 = t.id + 1
      rw [h1]
    · rcases List.mem_map.mp h1 with ⟨u, hu, he⟩
      refine ⟨u, List.mem_cons_of_mem t hu, ?_⟩
      show (ts.map (fun v => v.id)).foldl max t.id + 1 = u.id + 1
      rw [← he]

/-! ## Claim theorems -/

/-- C1: for every collection `C` and text `t` (the empty string included),
`addTask` returns `C` with exactly one new task appended at the end; the new
task has `completed = false`, text `t`, and an id that is `1` on the empty
collection and otherwise one more than the maximum id occurring in `C`
(it is attained by a member and strictly above every member). Every prior task
appears unchanged, in position, because the result literally extends `C`. -/
theorem addTask_appends_fresh_task (C : List Task) (t now : String) :
    ∃ task : Task,
      addTask C t now = C ++ [task]
      ∧ task.text = t ∧ task.completed = false ∧ task.createdAt = now
      ∧ (C = [] → task.id = 1)
      ∧ (C ≠ [] → (∃ u ∈ C, task.id = u.id + 1) ∧ ∀ u ∈ C, u.id < task.id) := by
  refine ⟨{ id := getNextId C, text := t, completed := false, createdAt := now },
    rfl, rfl, rfl, rfl, ?_, ?_⟩
  · intro h
    subst h
    rfl
  · intro h
    exact ⟨getNextId_attained C h, getNextId_gt C⟩

theorem addTask_appends_fresh_task_witness :
    ∃ task : Task,
      addTask [⟨3, "a", false, "T0"⟩] "buy milk" "T1" = [⟨3, "a", false, "T0"⟩] ++ [task]
      ∧ task.text = "buy milk" ∧ task.completed = false ∧ task.createdAt = "T1"
      ∧ ([(⟨3, "a", false, "T0"⟩ : Task)] = [] → task.id = 1)
      ∧ ([(⟨3, "a", false, "T0"⟩ : Task)] ≠ [] →
          (∃ u ∈ [(⟨3, "a", false, "T0"⟩ : Task)], task.id = u.id + 1)
          ∧ ∀ u ∈ [(⟨3, "a", false, "T0"⟩ : Task)], u.id < task.id) :=
  addTask_appends_fresh_task [⟨3, "a", false, "T0"⟩] "buy milk" "T1"

/-- C2: `markDone C n` preserves length and order; position by position, the
id, text and createdAt fields are unchanged, the completed flag becomes true
exactly at the positions whose id matches `n` and is untouched elsewhere; and
when no task of `C` carries the id, the result is equal to `C`. -/
theorem markDone_marks_matching (C : List Task) (n : Int) :
    ((∀ t ∈ C, t.id ≠ n) → markDone C n = C)
    ∧ (markDone C n).length = C.length
    ∧ ∀ (i : Nat) (h1 : i < C.length) (h2 : i < (markDone C n).length),
        ((markDone C n).get ⟨i, h2⟩).id = (C.get ⟨i, h1⟩).id
        ∧ ((markDone C n).get ⟨i, h2⟩).text = (C.get ⟨i, h1⟩).text
        ∧ ((markDone C n).get ⟨i, h2⟩).createdAt = (C.get ⟨i, h1⟩).createdAt
        ∧ ((markDone C n).get ⟨i, h2⟩).completed
            = (if (C.get ⟨i, h1⟩).id = n then true else (C.get ⟨i, h1⟩).completed) := by
  refine ⟨?_, List.length_map _ _, ?_⟩
  · intro h
    induction C with
    | nil => rfl
    | cons t ts ih =>
      have ht : t.id ≠ n := h t (List.mem_cons_self t ts)
      have hts : markDone ts n = ts := ih (fun u hu => h u (List.mem_cons_of_mem t hu))
      show (if t.id = n then { t with completed := true } else t) :: markDone ts n = t :: ts
      rw [if_neg ht, hts]
  · intro i h1 h2
    have hg : (markDone C n).get ⟨i, h2⟩
        = (if (C.get ⟨i, h1⟩).id = n then { C.get ⟨i, h1⟩ with completed := true }
           else C.get ⟨i, h1⟩) := by
      simp [markDone]
    rw [hg]
    by_cases hid : (C.get ⟨i, h1⟩).id = n
    · simp only [if_pos hid]
      simp
    · simp only [if_neg hid]
      simp

theorem markDone_marks_matching_witness :
    ((∀ t ∈ [(⟨1, "a", false, "T"⟩ : Task), ⟨2, "b", false, "T"⟩], t.id ≠ (2 : Int)) →
        markDone [⟨1, "a", false, "T"⟩, ⟨2, "b", false, "T"⟩] 2
          = [⟨1, "a", false, "T"⟩, ⟨2, "b", false, "T"⟩])
    ∧ (markDone [⟨1, "a", false, "T"⟩, ⟨2, "b", false, "T"⟩] 2).length
        = [(⟨1, "a", false, "T"⟩ : Task), ⟨2, "b", false, "T"⟩].length
    ∧ ∀ (i : Nat) (h1 : i < [(⟨1, "a", false, "T"⟩ : Task), ⟨2, "b", false, "T"⟩].length)
        (h2 : i < (markDone [⟨1, "a", false, "T"⟩, ⟨2, "b", false, "T"⟩] 2).length),
        ((markDone [⟨1, "a", false, "T"⟩, ⟨2, "b", false, "T"⟩] 2).get ⟨i, h2⟩).id
            = ([(⟨1, "a", false, "T"⟩ : Task), ⟨2, "b", false, "T"⟩].get ⟨i, h1⟩).id
        ∧ ((markDone [⟨1, "a", false, "T"⟩, ⟨2, "b", false, "T"⟩] 2).get ⟨i, h2⟩).text
            = ([(⟨1, "a", false, "T"⟩ : Task), ⟨2, "b", false, "T"⟩].get ⟨i, h1⟩).text
        ∧ ((markDone [⟨1, "a", false, "T"⟩, ⟨2, "b", false, "T"⟩] 2).get ⟨i, h2⟩).createdAt
            = ([(⟨1, "a", false, "T"⟩ : Task), ⟨2, "b", false, "T"⟩].get ⟨i, h1⟩).createdAt
        ∧ ((markDone [⟨1, "a", false, "T"⟩, ⟨2, "b", false, "T"⟩] 2).get ⟨i, h2⟩).completed
            = (if ([(⟨1, "a", false, "T"⟩ : Task), ⟨2, "b", false, "T"⟩].get ⟨i, h1⟩).id = 2
               then true
               else ([(⟨1, "a", false, "T"⟩ : Task), ⟨2, "b", false, "T"⟩].get ⟨i, h1⟩).completed) :=
  markDone_marks_matching [⟨1, "a", false, "T"⟩, ⟨2, "b", false, "T"⟩] 2

theorem intercalate_go_join (sep : String) (l : List String) (acc : String) :
    String.intercalate.go acc sep l = joinSep sep (acc :: l) := by
  induction l generalizing acc with
  | nil => rfl
  | cons b bs ih =>
    rw [show String.intercalate.go acc sep (b :: bs)
        = String.intercalate.go (acc ++ sep ++ b) sep bs from rfl]
    rw [ih]
    cases bs with
    | nil => rfl
    | cons c cs =>
      show (acc ++ sep ++ b) ++ sep ++ joinSep sep (c :: cs)
        = acc ++ sep ++ (b ++ sep ++ joinSep sep (c :: cs))
      simp [String.append_assoc]

/-- The `Array.join` model coincides with the library `String.intercalate`. -/
theorem joinSep_eq_intercalate (sep : String) (l : List String) :
    joinSep sep l = String.intercalate sep l := by
  cases l with
  | nil => rfl
  | cons a as => exact (intercalate_go_join sep as a).symm

/-- A task line always starts with a bracket, so it never equals the sentinel. -/
theorem formatTask_ne_sentinel (t : Task) : formatTask t ≠ "No tasks yet." := by
  intro h
  have hd := congrArg String.data h
  cases hc : t.completed <;> simp [formatTask, hc, String.data_append] at hd

/-- C3: on a nonempty collection, `listTasks` is exactly the per-task lines
`[<marker>] <id> - <text>` (marker `x` when completed, a space otherwise),
in insertion order, interleaved with newlines; on the empty collection it is
the sentinel `No tasks yet.`, which differs from every task line. -/
theorem listTasks_renders_lines (C : List Task) :
    (C ≠ [] → listTasks C = String.intercalate "\n" (C.map formatTask))
    ∧ listTasks [] = "No tasks yet."
    ∧ ∀ t : Task, formatTask t ≠ listTasks [] := by
  refine ⟨?_, rfl, fun t => formatTask_ne_sentinel t⟩
  intro h
  have hlen : C.length ≠ 0 := fun h0 => h (List.eq_nil_of_length_eq_zero h0)
  show (if C.length = 0 then "No tasks yet." else joinSep "\n" (C.map formatTask)) = _
  rw [if_neg hlen, joinSep_eq_intercalate]

theorem listTasks_renders_lines_witness :
    listTasks [⟨1, "buy milk", false, "T"⟩, ⟨2, "walk dog", true, "T"⟩]
      = String.intercalate "\n"
          ([(⟨1, "buy milk", false, "T"⟩ : Task), ⟨2, "walk dog", true, "T"⟩].map formatTask)
    ∧ listTasks [] = "No tasks yet." :=
  ⟨(listTasks_renders_lines [⟨1, "buy milk", false, "T"⟩, ⟨2, "walk dog", true, "T"⟩]).1
      (by decide),
   (listTasks_renders_lines []).2.1⟩

/-- C4: marking the same id done twice yields the same collection as marking
it once, for every collection and every id. -/
theorem markDone_idempotent (C : List Task) (n : Int) :
    markDone (markDone C n) n = markDone C n := by
  induction C with
  | nil => rfl
  | cons t ts ih =>
    show markDone ((if t.id = n then { t with completed := true } else t) :: markDone ts n) n
      = (if t.id = n then { t with completed := true } else t) :: markDone ts n
    by_cases h : t.id = n
    · simp only [if_pos h]
      show (if t.id = n then _ else _) :: markDone (markDone ts n) n = _
      rw [if_pos h, ih]
    · simp only [if_neg h]
      show (if t.id = n then _ else _) :: markDone (markDone ts n) n = _
      rw [if_neg h, ih]

/-- Marking a task done never changes the id sequence. -/
theorem ids_markDone (C : List Task) (n : Int) : ids (markDone C n) = ids C := by
  simp only [ids, markDone, List.map_map]
  apply List.map_congr_left
  intro t _
  by_cases h : t.id = n <;> simp [h]

/-- Toggling a task never changes the id sequence. -/
theorem ids_toggleTask (C : List Task) (n : Int) : ids (toggleTask C n) = ids C := by
  induction C with
  | nil => rfl
  | cons t ts ih =>
    by_cases h : t.id = n
    · simp [toggleTask, h, ids]
    · simp only [toggleTask, if_neg h, ids, List.map_cons]
      simpa [ids] using ih

/-- C6: for every collection with pairwise-distinct ids, the collections
produced by add, mark-done, delete, toggle and clear-completed again have
pairwise-distinct ids, and the id the add operation assigns differs from every
id already present. -/
theorem operations_preserve_id_uniqueness (C : List Task) (t now : String) (n : Int)
    (h : (ids C).Nodup) :
    (ids (addTask C t now)).Nodup
    ∧ (∀ u ∈ C, u.id ≠ getNextId C)
    ∧ (ids (markDone C n)).Nodup
    ∧ (ids (deleteTask C n)).Nodup
    ∧ (ids (toggleTask C n)).Nodup
    ∧ (ids (clearCompleted C)).Nodup := by
  have hadd : ids (addTask C t now) = ids C ++ [getNextId C] := by
    simp [ids, addTask]
  refine ⟨?_, ?_, ?_, ?_, ?_, ?_⟩
  · rw [hadd, List.nodup_append]
    refine ⟨h, List.nodup_singleton _, ?_⟩
    intro a ha hb
    rcases List.mem_map.mp ha with ⟨u, hu, he⟩
    rcases List.mem_singleton.mp hb with rfl
    exact absurd he (ne_of_lt (getNextId_gt C u hu))
  · exact fun u hu => ne_of_lt (getNextId_gt C u hu)
  · rw [ids_markDone]
    exact h
  · refine List.Nodup.sublist ?_ h
    show (ids (deleteTask C n)).Sublist (ids C)
    exact (List.filter_sublist C).map (fun u => u.id)
  · rw [ids_toggleTask]
    exact h
  · refine List.Nodup.sublist ?_ h
    show (ids (clearCompleted C)).Sublist (ids C)
    exact (List.filter_sublist C).map (fun u => u.id)

theorem operations_preserve_id_uniqueness_witness :
    (ids (addTask [⟨1, "a", false, "T"⟩, ⟨3, "b", true, "T"⟩] "c" "T2")).Nodup
    ∧ (∀ u ∈ [(⟨1, "a", false, "T"⟩ : Task), ⟨3, "b", true, "T"⟩],
        u.id ≠ getNextId [⟨1, "a", false, "T"⟩, ⟨3, "b", true, "T"⟩])
    ∧ (ids (markDone [⟨1, "a", false, "T"⟩, ⟨3, "b", true, "T"⟩] 3)).Nodup
    ∧ (ids (deleteTask [⟨1, "a", false, "T"⟩, ⟨3, "b", true, "T"⟩] 3)).Nodup
    ∧ (ids (toggleTask [⟨1, "a", false, "T"⟩, ⟨3, "b", true, "T"⟩] 3)).Nodup
    ∧ (ids (clearCompleted [⟨1, "a", false, "T"⟩, ⟨3, "b", true, "T"⟩])).Nodup :=
  operations_preserve_id_uniqueness [⟨1, "a", false, "T"⟩, ⟨3, "b", true, "T"⟩]
    "c" "T2" 3 (by decide)

/-- Reading back the encoding of a task list recovers the list exactly. -/
theorem readTasks_encodeTasks (ts : List Task) : readTasks (encodeTasks ts) = some ts := by
  show readTaskList (ts.map encodeTask) = some ts
  induction ts with
  | nil => rfl
  | cons t ts ih =>
    show (match readTask (encodeTask t), readTaskList (ts.map encodeTask) with
          | some t, some ts => some (t :: ts)
          | _, _ => none) = some (t :: ts)
    rw [ih]
    rfl

/-- C5: the persisted representation round-trips. The blob `saveTasks` writes
is the JSON rendering of `encodeTasks ts`; reading that value back as tasks
(`readTasks`) recovers `ts` with all four fields and the order intact, and the
value `loadTasks` installs from any blob that parses to `encodeTasks ts` reads
back as exactly `ts`. -/
theorem persisted_roundtrip (parse : String → Option Json) (s : String)
    (ts : List Task) (current : Json)
    (hs : s ≠ "") (hp : parse s = some (encodeTasks ts)) :
    readTasks (encodeTasks ts) = some ts
    ∧ readTasks (loadTasks parse (some s) current) = some ts := by
  refine ⟨readTasks_encodeTasks ts, ?_⟩
  show readTasks (if s = "" then current
    else match parse s with
         | some v => v
         | none => Json.arr []) = some ts
  rw [if_neg hs, hp]
  exact readTasks_encodeTasks ts

theorem persisted_roundtrip_witness :
    readTasks (encodeTasks [⟨1, "buy milk", false, "T"⟩])
      = some [⟨1, "buy milk", false, "T"⟩]
    ∧ readTasks (loadTasks (fun _ => some (encodeTasks [⟨1, "buy milk", false, "T"⟩]))
        (some "blob") Json.null)
      = some [⟨1, "buy milk", false, "T"⟩] :=
  persisted_roundtrip (fun _ => some (encodeTasks [⟨1, "buy milk", false, "T"⟩]))
    "blob" [⟨1, "buy milk", false, "T"⟩] Json.null (by decide) rfl

/-- C8: a stored blob that fails to parse makes loading yield the empty
collection — unconditionally at the startup state (the only call site runs
with `tasks = []`), and for every nonempty blob regardless of the in-memory
value. Loading is total, so execution continues; and this is the only
condition that discards stored data: a blob that parses is installed as is,
and a missing blob leaves the collection as it was. -/
theorem loadTasks_corrupt_resets (parse : String → Option Json) (s : String)
    (current : Json) (v : Json) :
    (parse s = none → loadTasks parse (some s) (Json.arr []) = Json.arr [])
    ∧ (s ≠ "" → parse s = none → loadTasks parse (some s) current = Json.arr [])
    ∧ (s ≠ "" → parse s = some v → loadTasks parse (some s) current = v)
    ∧ loadTasks parse none current = current := by
  refine ⟨?_, ?_, ?_, rfl⟩
  · intro hp
    by_cases hs : s = ""
    · subst hs
      rfl
    · show (if s = "" then Json.arr []
        else match parse s with
             | some v => v
             | none => Json.arr []) = Json.arr []
      rw [if_neg hs, hp]
  · intro hs hp
    show (if s = "" then current
      else match parse s with
           | some v => v
           | none => Json.arr []) = Json.arr []
    rw [if_neg hs, hp]
  · intro hs hp
    show (if s = "" then current
      else match parse s with
           | some v => v
           | none => Json.arr []) = v
    rw [if_neg hs, hp]

theorem loadTasks_corrupt_resets_witness :
    loadTasks (fun _ => none) (some "not json") (Json.arr []) = Json.arr [] :=
  (loadTasks_corrupt_resets (fun _ => none) "not json" (Json.arr []) Json.null).1 rfl

/-- C10: deserialization checks no task schema: every value the parse yields
for a nonempty blob is installed as the collection as is — here a bare number,
which is not a task array (`readTasks` rejects it) — the reset-to-empty branch
runs exactly on a nonempty blob whose parse fails, and a missing slot leaves
the in-memory collection as it was (an empty-string blob is skipped by the
same truthiness guard and also leaves it unchanged, its parse never run). -/
theorem loadTasks_installs_unvalidated (parse : String → Option Json) (s : String)
    (current v : Json) :
    (s ≠ "" → parse s = some v → loadTasks parse (some s) current = v)
    ∧ (s ≠ "" → parse s = none → loadTasks parse (some s) current = Json.arr [])
    ∧ loadTasks parse none current = current
    ∧ loadTasks parse (some "") current = current := by
  refine ⟨?_, ?_, rfl, rfl⟩
  · intro hs hp
    show (if s = "" then current
      else match parse s with
           | some v => v
           | none => Json.arr []) = v
    rw [if_neg hs, hp]
  · intro hs hp
    show (if s = "" then current
      else match parse s with
           | some v => v
           | none => Json.arr []) = Json.arr []
    rw [if_neg hs, hp]

theorem loadTasks_installs_unvalidated_witness :
    loadTasks (fun _ => some (Json.num 5)) (some "5") (Json.arr []) = Json.num 5
    ∧ readTasks (Json.num 5) = none :=
  ⟨(loadTasks_installs_unvalidated (fun _ => some (Json.num 5)) "5"
      (Json.arr []) (Json.num 5)).1 (by decide) rfl,
   rfl⟩

theorem string_length_zero (s : String) (h : s.length = 0) : s = "" := by
  cases s with
  | mk data =>
    cases data with
    | nil => rfl
    | cons c cs => simp [String.length] at h

/-- C7 counterexample: on the line `done 12abc` the token `12abc` is not a
valid integer, yet with a task of id 12 present the console does not report an
invalid-id error — `parseInt` reads the leading digits, the task is marked
done (the collection changes) and a success message is printed. -/
theorem done_invalid_token_cex :
    (processCommand "T1" "done 12abc" [⟨12, "pay bills", false, "T0"⟩]).1
        = [⟨12, "pay bills", true, "T0"⟩]
    ∧ (processCommand "T1" "done 12abc" [⟨12, "pay bills", false, "T0"⟩]).1
        ≠ [⟨12, "pay bills", false, "T0"⟩]
    ∧ (processCommand "T1" "done 12abc" [⟨12, "pay bills", false, "T0"⟩]).2
        = ["Task 12 marked as done!"] :=
  ⟨by decide, by decide, by decide⟩

/-- C7 (amended): for every console line whose command keyword is `done` and
whose id string (the tokens after the keyword joined back and trimmed) is
nonempty but yields NaN under `parseInt` — it has no leading decimal digits
after an optional sign — the console reports the invalid-id error naming the
string, and the collection is unchanged. Tokens with a digit prefix such as
`12abc` are instead read as that prefix. -/
theorem done_without_digit_prefix_rejected (now input : String) (tasks : List Task)
    (hcmd : cmdOf input = "done")
    (hne : jsTrim (argsJoined input) ≠ "")
    (hparse : parseIntBase10 (jsTrim (argsJoined input)) = none) :
    processCommand now input tasks
      = (tasks, ["Error: \"" ++ jsTrim (argsJoined input)
          ++ "\" is not a valid task ID. Please use a number."]) := by
  have hcmd' : jsToLower ((jsSplitOnSpace (jsTrim input)).headD "") = "done" := hcmd
  have hne' : jsTrim (joinSep " " ((jsSplitOnSpace (jsTrim input)).drop 1)) ≠ "" := hne
  have hp' : parseIntBase10 (jsTrim (joinSep " " ((jsSplitOnSpace (jsTrim input)).drop 1)))
      = none := hparse
  simp only [processCommand, argsJoined, hcmd', hp']
  rw [List.drop_one] at hne'
  simp [hne']

theorem done_without_digit_prefix_rejected_witness :
    processCommand "T" "done abc" []
      = ([], ["Error: \"abc\" is not a valid task ID. Please use a number."]) := by
  have h := done_without_digit_prefix_rejected "T" "done abc" []
    (by decide) (by decide) (by decide)
  rw [h]
  decide

/-- C9 counterexample: on the line `add a  b` (two spaces between the tokens
`a` and `b`) the stored text is `a  b` — the interior run of whitespace
survives — not the single-space join `a b` the claim predicts. -/
theorem add_whitespace_cex :
    (processCommand "T" "add a  b" ([] : List Task)).1
        = [⟨1, "a  b", false, "T"⟩]
    ∧ ("a  b" : String) ≠ "a b" :=
  ⟨by decide, by decide⟩

/-- C9 (amended): for every console line whose command keyword is `add` and
whose argument text is nonempty, the stored text is the split-on-single-space
parts after the keyword rejoined with single spaces. Because the split keeps
an empty part for each extra space, this reproduces the trimmed line after the
first token exactly: runs of interior spaces survive into the stored text. -/
theorem add_stores_rejoined_parts (now input : String) (tasks : List Task)
    (hcmd : cmdOf input = "add") (hne : argsJoined input ≠ "") :
    processCommand now input tasks
      = (tasks ++ [{ id := getNextId tasks, text := argsJoined input,
                     completed := false, createdAt := now }],
         ["Task added successfully!"]) := by
  have hcmd' : jsToLower ((jsSplitOnSpace (jsTrim input)).headD "") = "add" := hcmd
  have hne' : ¬(joinSep " " ((jsSplitOnSpace (jsTrim input)).drop 1)).length = 0 := by
    intro hl
    exact hne (string_length_zero _ hl)
  simp only [processCommand, argsJoined, addTask, hcmd', hne']
  simp [hne']

theorem add_stores_rejoined_parts_witness :
    processCommand "T" "add buy  milk" []
      = ([⟨1, "buy  milk", false, "T"⟩], ["Task added successfully!"]) := by
  have h := add_stores_rejoined_parts "T" "add buy  milk" [] (by decide) (by decide)
  rw [h]
  decide

end TsTodo
